import Mathlib

/-!
Verification of the mochawesome result-normalization module (`dist/utils.js`).

The development shallowly embeds the module's operations as Lean functions:

* `cleanCode` — the code-snippet cleaner (function-wrapper stripping, dedent, trim);
* `createUnifiedDiff` / `createInlineDiff` — the diff builder;
* `normalizeErr` — the error normalizer (returned together with the possibly
  mutated raw error, since the source overwrites `err.actual` / `err.expected`
  in place before diffing);
* `cleanTest` — the test normalizer (returned together with the updated raw
  test object, whose only possible change is the nested error mutation);
* `cleanSuiteModel` — the suite normalizer, acting on a suite record plus its
  child count, threading the shared test counter and the uuid generator;
* `traverseSuites` — the tree walker.

JavaScript in-place mutation is modelled by explicit state passing: every
operation that mutates returns the updated value.  The nondeterministic
`uuid.v4()` calls are modelled by threading a natural-number generator that
yields pairwise distinct fresh identifiers.  External library routines that the
module merely calls (`mocha/lib/utils.stringify`, `json-stringify-safe`,
`strip-ansi`, the `diff` package) are modelled separately; each carries a doc
comment saying what is modelled.
-/

/-- Characters matched by the JavaScript regex class `\s` (ECMAScript
whitespace plus line terminators), used by the source's regexes. -/
def isJsWS (c : Char) : Bool :=
  [' ', '\t', '\n', '\x0b', '\x0c', '\r', '\u00A0', '\u1680', '\u2028', '\u2029',
    '\u202F', '\u205F', '\u3000', '\uFEFF'].contains c ||
  ('\u2000' ≤ c && c ≤ '\u200A')

/-- Characters that the JavaScript regex `.` does not match (line terminators). -/
def isLineTerm (c : Char) : Bool :=
  ['\n', '\r', '\u2028', '\u2029'].contains c

/-- Runtime values relevant to the module: the JavaScript primitives that can
appear in `err.actual` / `err.expected` / `err.showDiff` and `test.context`. -/
inductive JSVal where
  | undef : JSVal
  | nullv : JSVal
  | str : String → JSVal
  | num : Int → JSVal
  | bool : Bool → JSVal
deriving DecidableEq

/-- Tag produced by `Object.prototype.toString.call` on a primitive value;
this is what the source's `sameType` helper compares. -/
def typeTag : JSVal → String
  | .undef => "[object Undefined]"
  | .nullv => "[object Null]"
  | .str _ => "[object String]"
  | .num _ => "[object Number]"
  | .bool _ => "[object Boolean]"

/-- The source's `sameType(a, b)` helper inside `normalizeErr`. -/
def sameType (a b : JSVal) : Bool := typeTag a == typeTag b

/-- Lodash `_.isString`. -/
def isStrVal : JSVal → Bool
  | .str _ => true
  | _ => false

/-- Modelled from the spec: the runner's canonical stringify routine
(`mocha/lib/utils.stringify`, an external dependency) converting a non-string
value to a display string.  Only its type and determinism matter here. -/
def mochaStringify : JSVal → String
  | .undef => "[undefined]"
  | .nullv => "[null]"
  | .str s => "'" ++ s ++ "'"
  | .num n => toString n
  | .bool b => toString b

/-- Modelled from the spec: `json-stringify-safe` serialization used for
`test.context`; `JSON.stringify` on `undefined` yields `undefined` (`none`). -/
def jsonStringify : JSVal → Option String
  | .undef => none
  | .nullv => some "null"
  | .str s => some ("\"" ++ s ++ "\"")
  | .num n => some (toString n)
  | .bool b => some (toString b)

/-- Whether `p` is a prefix of `s` (Boolean, on character lists). -/
def isPrefixCL : List Char → List Char → Bool
  | [], _ => true
  | _ :: _, [] => false
  | p :: ps, c :: cs => p == c && isPrefixCL ps cs

/-- Whether `pat` occurs as a contiguous substring of `s` (the source's
`line.match(/@@/)`-style containment checks). -/
def hasSubCL (pat : List Char) : List Char → Bool
  | [] => isPrefixCL pat []
  | c :: rest => isPrefixCL pat (c :: rest) || hasSubCL pat rest

/-- String-level substring containment. -/
def hasSub (s pat : String) : Bool := hasSubCL pat.data s.data

/-- JavaScript `str.split('\n')` on character lists. -/
def splitOnNL : List Char → List (List Char)
  | [] => [[]]
  | c :: rest =>
    if c == '\n' then [] :: splitOnNL rest
    else
      match splitOnNL rest with
      | [] => [[c]]
      | l :: ls => (c :: l) :: ls

/-- JavaScript `arr.join('\n')` on character lists. -/
def joinNL : List (List Char) → List Char
  | [] => []
  | [l] => l
  | l :: ls => l ++ '\n' :: joinNL ls

/-- The lines of a string, i.e. JavaScript `s.split('\n')`. -/
def linesOf (s : String) : List String := (splitOnNL s.data).map (fun l => ⟨l⟩)

/-- Remove the first occurrence of `pat` from `s` (JavaScript
`s.replace(pat, '')` with a plain-string pattern), on character lists. -/
def removeFirstOcc (pat : List Char) : List Char → List Char
  | [] => []
  | c :: rest =>
    if isPrefixCL pat (c :: rest) && pat ≠ [] then (c :: rest).drop pat.length
    else c :: removeFirstOcc pat rest

/-- Modelled from the spec: the external `strip-ansi` package; removes ANSI
CSI escape sequences (ESC `[` parameters final-byte) from a string. -/
def stripAnsiGo : Nat → List Char → List Char
  | 0, cs => cs
  | _ + 1, [] => []
  | fuel + 1, c :: rest =>
    if c == '\x1b' then
      match rest with
      | '[' :: r2 =>
        match r2.dropWhile (fun d => !('\x40' ≤ d && d ≤ '\x7e')) with
        | [] => []
        | _ :: r4 => stripAnsiGo fuel r4
      | _ => c :: stripAnsiGo fuel rest
    else c :: stripAnsiGo fuel rest

/-- Modelled from the spec: `strip-ansi` at string level. -/
def stripAnsi (s : String) : String := ⟨stripAnsiGo s.data.length s.data⟩

/-- First line of a string: the source's `stack.replace(/\n.*/g, '')`, which
deletes every newline together with the rest of its line. -/
def firstLine (s : String) : String := ⟨s.data.takeWhile (fun c => c ≠ '\n')⟩

/-- Truthiness of an optional string (JavaScript `s && …` guards: absent or
empty strings are falsy). -/
def truthyStr : Option String → Bool
  | none => false
  | some s => s ≠ ""

/-- First step of `cleanCode` (line 76): the source's
regex replacing CR LF, CR, LF, U+2028 and U+2029, normalizing every line
ending to a single `'\n'`. -/
def normalizeNL : List Char → List Char
  | [] => []
  | c :: rest =>
    if c == '\r' then
      match rest with
      | [] => ['\n']
      | d :: _ => if d == '\n' then normalizeNL rest else '\n' :: normalizeNL rest
    else if c == '\n' || c == '\u2028' || c == '\u2029' then '\n' :: normalizeNL rest
    else c :: normalizeNL rest

/-- Second step of `cleanCode` (line 76): `str.replace` dropping one leading byte-order mark. -/
def stripBOM : List Char → List Char
  | [] => []
  | c :: rest => if c == '\uFEFF' then rest else c :: rest

/-- Continuation for the `function`-header alternative: after the greedy
`.*` has stopped on a `)`, the regex still needs `\s*` followed by an
opening brace; returns the text after the brace on success. -/
def parenBraceTail (rest : List Char) : Option (List Char) :=
  match rest.dropWhile isJsWS with
  | '\x7b' :: t => some t
  | _ => none

/-- Continuation for the arrow alternative: after the `)` the regex needs
`\s*=>\s*` followed by an optional opening brace. -/
def arrowTail (rest : List Char) : Option (List Char) :=
  match rest.dropWhile isJsWS with
  | '=' :: '>' :: r2 =>
    match r2.dropWhile isJsWS with
    | '\x7b' :: t => some t
    | r3 => some r3
  | _ => none

/-- Greedy backtracking for `.*\)` followed by continuation `k`: the
JavaScript engine lets `.*` consume as much of the current line as possible
and backtracks to the rightmost `)` whose continuation succeeds. -/
def greedyClose (k : List Char → Option (List Char)) : List Char → Option (List Char)
  | [] => none
  | c :: rest =>
    if isLineTerm c then none
    else
      match greedyClose k rest with
      | some t => some t
      | none => if c == ')' then k rest else none

/-- The anchored first alternative `^function\s*\(.*\)\s*\x7b` of the
header-stripping regex on line 76. -/
def tryFnAlt (s : List Char) : Option (List Char) :=
  if isPrefixCL "function".data s then
    match (s.drop 8).dropWhile isJsWS with
    | [] => none
    | c :: rest => if c == '(' then greedyClose parenBraceTail rest else none
  else none

/-- Scan for the leftmost match of the unanchored second alternative
`\(.*\)\s*=>\s*\x7b?` and delete it; returns the string with the match
removed, or `none` when there is no match. -/
def scanArrow : List Char → Option (List Char)
  | [] => none
  | c :: rest =>
    if c == '(' then
      match greedyClose arrowTail rest with
      | some t => some t
      | none =>
        match scanArrow rest with
        | some r => some (c :: r)
        | none => none
    else
      match scanArrow rest with
      | some r => some (c :: r)
      | none => none

/-- Third step of `cleanCode` (line 76): remove the first match of
`/^function\s*\(.*\)\s*\x7b|\(.*\)\s*=>\s*\x7b?/` — the regex engine tries
the anchored `function` alternative at position 0 first, then scans for the
arrow alternative. -/
def stripFnHeader (s : List Char) : List Char :=
  match tryFnAlt s with
  | some t => t
  | none =>
    match scanArrow s with
    | some r => r
    | none => s

/-- Fourth step of `cleanCode` (line 76): `str.replace(/\s*\}$/, '')` —
when the string ends in a closing brace, that brace and the whitespace run
before it are removed. -/
def stripTrailingBrace (s : List Char) : List Char :=
  match s.reverse with
  | [] => s
  | c :: rest => if c == '\x7d' then (rest.dropWhile isJsWS).reverse else s

/-- Length of the run of copies of `c` at the head of the list. -/
def countLeading (c : Char) : List Char → Nat
  | [] => 0
  | d :: rest => if d == c then countLeading c rest + 1 else 0

/-- Skip one leading newline if present (the `^\n?` of the indentation
probes on lines 78–79). -/
def afterOptNL : List Char → List Char
  | [] => []
  | c :: rest => if c == '\n' then rest else c :: rest

/-- Replace-all pass of the dynamically built dedent regex
`^\n?ch\x7bn\x7d` with flags `gm` (line 81–83): at every line start the
engine greedily takes an optional newline and then exactly `n` copies of
`ch`, and the match is deleted.  `atLS` records whether the current
position is a line start of the original string.  The extra `Nat` is fuel
making the recursion structural: every step consumes at least one
character, so fuel equal to the string length (what `dedent` passes) is
never exhausted. -/
def dedentGo (ch : Char) (n : Nat) : Nat → List Char → Bool → List Char
  | 0, s, _ => s
  | _ + 1, [], _ => []
  | fuel + 1, c :: rest, atLS =>
    if atLS then
      match n with
      | 0 =>
        if c == '\n' then dedentGo ch 0 fuel rest true
        else c :: dedentGo ch 0 fuel rest false
      | m + 1 =>
        if c == '\n' && isPrefixCL (List.replicate (m + 1) ch) rest then
          dedentGo ch (m + 1) fuel (rest.drop (m + 1)) false
        else if isPrefixCL (List.replicate (m + 1) ch) (c :: rest) then
          dedentGo ch (m + 1) fuel (rest.drop m) false
        else c :: dedentGo ch (m + 1) fuel rest (c == '\n')
    else c :: dedentGo ch n fuel rest (c == '\n')

/-- Fifth step of `cleanCode` (lines 78–83): detect the indentation unit
(`spaces` and `tabs` probes) and strip it from every line. -/
def dedent (s : List Char) : List Char :=
  let spaces := countLeading ' ' (afterOptNL s)
  let tabs := countLeading '\t' (afterOptNL s)
  let ch := if tabs == 0 then ' ' else '\t'
  let n := if tabs == 0 then spaces else tabs
  dedentGo ch n s.length s true

/-- Final step of `cleanCode` (line 84): `str.replace(/^\s+|\s+$/g, '')`,
i.e. trim leading and trailing JavaScript whitespace. -/
def trimWS (s : List Char) : List Char :=
  ((s.dropWhile isJsWS).reverse.dropWhile isJsWS).reverse

/-- The source's `cleanCode` (lines 75–86): normalize newlines, strip a
BOM, strip a function or arrow header, strip a trailing brace, strip the
detected indentation from every line, and trim. -/
def cleanCode (s : String) : String :=
  ⟨trimWS (dedent (stripTrailingBrace (stripFnHeader (stripBOM (normalizeNL s.data)))))⟩

/-- One entry of the source's unified-diff line map (lines 102–108): lines
matching `/@@/` or `/\x5c No newline/` are dropped; a leading `-` or `+`
marker gets a space inserted after it; other lines pass through. -/
def diffLineStep (l : List Char) : Option (List Char) :=
  if hasSubCL "@@".data l then none
  else if hasSubCL "\x5c No newline".data l then none
  else
    match l with
    | [] => some []
    | c :: rest => if c == '-' || c == '+' then some (c :: ' ' :: rest) else some (c :: rest)

/-- The source's patch post-processing (lines 101–111): split the patch
into lines, drop the four header lines (`.splice(4)`), apply
`diffLineStep` to each line, drop the `null` entries, and rejoin with
newlines. -/
def processPatch (patch : String) : String :=
  ⟨joinNL (((splitOnNL patch.data).drop 4).filterMap diffLineStep)⟩

/-- Modelled from the spec: `diff.createPatch('string', old, new)` from the
external `diff` package.  The model covers the patch shape for inputs that
share no common lines and have no trailing newline — the only inputs the
concrete examples below feed it: the standard four-line header, a single
hunk header, every old line marked `-`, every new line marked `+`, and a
no-newline marker after each side. Equal inputs produce the bare header. -/
def createPatch (oldStr newStr : String) : String :=
  let ruler : String := ⟨List.replicate 67 '='⟩
  let header := "Index: string\n" ++ ruler ++ "\n--- string\n+++ string\n"
  if oldStr == newStr then header
  else
    let oldLines := splitOnNL oldStr.data
    let newLines := splitOnNL newStr.data
    let noNL := '\n' :: '\x5c' :: " No newline at end of file".data
    let hunk := ("@@ -1," ++ toString oldLines.length ++ " +1," ++
      toString newLines.length ++ " @@").data
    ⟨header.data ++ hunk ++ '\n' ::
      (joinNL (oldLines.map (fun l => '-' :: l)) ++ noNL) ++ '\n' ::
      (joinNL (newLines.map (fun l => '+' :: l)) ++ noNL) ++ ['\n']⟩

/-- The source's `createUnifiedDiff` (lines 97–112), reading the `actual`
and `expected` fields of the error it is given. -/
def createUnifiedDiff (actual expected : String) : String :=
  processPatch (createPatch actual expected)

/-- A word-level diff segment as returned by the external `diff` package's
`diffWordsWithSpace`. -/
structure DiffSeg where
  value : String
  added : Bool
  removed : Bool
deriving DecidableEq

/-- Modelled from the spec: `diff.diffWordsWithSpace` (external `diff`
package), the source's `createInlineDiff` (lines 123–128); an ordered list
of tagged segments.  Only its shape matters to the claims. -/
def diffWordsWithSpace (actual expected : String) : List DiffSeg :=
  if actual == expected then [⟨actual, false, false⟩]
  else [⟨actual, false, true⟩, ⟨expected, true, false⟩]

/-- The value stored in a normalized error's `diff` field: a unified-diff
string or a list of inline word-diff segments. -/
inductive DiffVal where
  | unified : String → DiffVal
  | inlineSegs : List DiffSeg → DiffVal
deriving DecidableEq

/-- A raw error object as consumed by `normalizeErr` (line 137):
`name`, `message`, `stack` are optional strings; `actual`, `expected` and
`showDiff` are arbitrary runtime values. -/
structure RawErr where
  name : Option String
  message : Option String
  stack : Option String
  actual : JSVal
  expected : JSVal
  showDiff : JSVal
deriving DecidableEq

/-- A normalized error: the `\x7bmessage, estack, diff\x7d` record built on
lines 174–178. -/
structure NormErr where
  message : Option String
  estack : Option String
  diff : Option DiffVal
deriving DecidableEq

/-- Report configuration consumed by the module: the diff-mode flag and the
process working directory read on line 252. -/
structure Config where
  useInlineDiffs : Bool
  cwd : String
deriving DecidableEq

/-- The diff guard on line 157:
`showDiff !== false && sameType(actual, expected) && expected !== undefined`. -/
def diffGuard (e : RawErr) : Bool :=
  (e.showDiff != JSVal.bool false) && sameType e.actual e.expected &&
    (e.expected != JSVal.undef)

/-- The source's `normalizeErr` (lines 137–179).  Because the source
overwrites `err.actual` and `err.expected` in place with stringified values
before diffing (lines 160–161), the model returns the normalized record
together with the updated raw error. -/
def normalizeErr (err : RawErr) (config : Config) : NormErr × RawErr :=
  let bothStr := isStrVal err.actual && isStrVal err.expected
  let err' :=
    if diffGuard err && !bothStr then
      { err with actual := JSVal.str (mochaStringify err.actual),
                 expected := JSVal.str (mochaStringify err.expected) }
    else err
  let strOf : JSVal → String := fun v =>
    match v with
    | .str s => s
    | v => mochaStringify v
  let errDiff : Option DiffVal :=
    if diffGuard err then
      some (if config.useInlineDiffs then
              DiffVal.inlineSegs (diffWordsWithSpace (strOf err'.actual) (strOf err'.expected))
            else
              DiffVal.unified (createUnifiedDiff (strOf err'.actual) (strOf err'.expected)))
    else none
  let errMessage : Option String :=
    if truthyStr err.name && truthyStr err.message then
      some ((err.name.getD "") ++ ": " ++ stripAnsi (err.message.getD ""))
    else if truthyStr err.stack then
      some (firstLine (err.stack.getD ""))
    else none
  ({ message := errMessage,
     estack := err.stack.map stripAnsi,
     diff := errDiff }, err')

/-- The slice of a test's parent suite that `cleanTest` reads (lines
206–208): the parent's `root` flag and its `uuid`. -/
structure ParentRef where
  root : Bool
  uuid : Option String
deriving DecidableEq

/-- A raw runner test/hook record as consumed by `cleanTest` (line 189).
`fullTitleFn = some s` models a callable `fullTitle` accessor returning
`s`; `none` models a non-callable field, for which the source falls back to
the plain title.  `fn = some c` models a function whose `toString()` is
`c`. -/
structure RawTest where
  title : String
  fullTitleFn : Option String
  timedOut : Bool
  duration : Option Nat
  state : Option String
  speed : Option String
  pending : Bool
  context : JSVal
  fn : Option String
  body : Option String
  err : Option RawErr
  parent : Option ParentRef
  uuid : Option String
  type : Option String
deriving DecidableEq

/-- The plain test object built by `cleanTest` (lines 193–214).
`err = none` models the empty object the source substitutes when the test
carries no error (line 205). -/
structure CTest where
  title : String
  fullTitle : String
  timedOut : Bool
  duration : Nat
  state : Option String
  speed : Option String
  pass : Bool
  fail : Bool
  pending : Bool
  context : Option String
  code : Option String
  err : Option NormErr
  isRoot : Bool
  uuid : String
  parentUUID : Option String
  isHook : Bool
  skipped : Bool
deriving DecidableEq

/-- Fresh identifier produced by the `n`-th call of the modelled
`uuid.v4()`; distinct indices give distinct identifiers. -/
def genUuid (n : Nat) : String := "uuid-" ++ toString n

/-- The source's `cleanTest` (lines 189–215).  The generator index `g`
models the `uuid.v4()` supply: a fresh identifier is drawn only when the
test carries no truthy uuid (line 207).  The updated raw test is returned
as well: its only possible change is the in-place error mutation performed
by `normalizeErr` (line 205 hands `test.err` to it); nothing is written
back to the raw test's own fields. -/
def cleanTest (config : Config) (test : RawTest) (g : Nat) : CTest × RawTest × Nat :=
  let code : Option String :=
    match test.fn with
    | some f => some f
    | none => test.body
  let uuidDraw : String × Nat :=
    match test.uuid with
    | some u => if u == "" then (genUuid g, g + 1) else (u, g)
    | none => (genUuid g, g + 1)
  let errPair := test.err.map (fun e => normalizeErr e config)
  let pass := test.state == some "passed"
  let fail := test.state == some "failed"
  let isHook := test.type == some "hook"
  ({ title := test.title
     fullTitle :=
       match test.fullTitleFn with
       | some f => f
       | none => test.title
     timedOut := test.timedOut
     duration := test.duration.getD 0
     state := test.state
     speed := test.speed
     pass := pass
     fail := fail
     pending := test.pending
     context := jsonStringify test.context
     code := code.map (fun c => if c == "" then "" else cleanCode c)
     err := errPair.map (fun p => p.1)
     isRoot :=
       match test.parent with
       | some p => p.root
       | none => false
     uuid := uuidDraw.1
     parentUUID := test.parent.bind (fun p => p.uuid)
     isHook := isHook
     skipped := !pass && !fail && !test.pending && !isHook },
   { test with err := errPair.map (fun p => p.2) }, uuidDraw.2)

/-- `_.map(tests, cleanTest)` with the uuid generator threaded through in
order. -/
def cleanTestList (config : Config) : List RawTest → Nat → List CTest × Nat
  | [], g => ([], g)
  | t :: ts, g =>
    let r := cleanTest config t g
    let rs := cleanTestList config ts r.2.2
    (r.1 :: rs.1, rs.2)

/-- The per-suite fields of a raw runner suite as read by `cleanSuite`:
title, file, the `root` flag, the internal `_timeout` setting (modelled as
`timeoutMs`), the four hook collections, the direct tests and an optional
pre-existing uuid.  Child suites live in the surrounding tree node. -/
structure SuiteData where
  title : Option String
  file : Option String
  root : Bool
  timeoutMs : Nat
  beforeAll : List RawTest
  beforeEach : List RawTest
  afterAll : List RawTest
  afterEach : List RawTest
  tests : List RawTest
  uuid : Option String
deriving DecidableEq

/-- The fields carried by a suite after `cleanSuite` has run (lines
225–274): exactly the allow-list of line 273, with `_timeout` modelled as
`timeoutMs`; `suites` lives in the surrounding tree node. -/
structure CSuiteData where
  title : Option String
  fullFile : String
  file : String
  beforeHooks : List CTest
  afterHooks : List CTest
  tests : List CTest
  passes : List CTest
  failures : List CTest
  pending : List CTest
  skipped : List CTest
  hasBeforeHooks : Bool
  hasAfterHooks : Bool
  hasTests : Bool
  hasSuites : Bool
  totalTests : Nat
  totalPasses : Nat
  totalFailures : Nat
  totalPending : Nat
  totalSkipped : Nat
  hasPasses : Bool
  hasFailures : Bool
  hasPending : Bool
  hasSkipped : Bool
  root : Bool
  uuid : String
  duration : Nat
  rootEmpty : Bool
  timeoutMs : Nat
deriving DecidableEq

/-- The source's `cleanSuite` (lines 225–274) on one suite record.
`numChildSuites` is the length of `suite.suites` (read on line 260);
`counter` is the shared `totalTestsRegistered.total` cell, incremented by
the number of direct tests (line 246); `g` is the uuid generator index.  A
fresh suite uuid is always drawn (line 226), before the hooks and tests
are normalized in source order. -/
def cleanSuiteModel (config : Config) (suite : SuiteData) (numChildSuites : Nat)
    (counter : Nat) (g : Nat) : CSuiteData × Nat × Nat :=
  let suiteUuid := genUuid g
  let r1 := cleanTestList config (suite.beforeAll ++ suite.beforeEach) (g + 1)
  let r2 := cleanTestList config (suite.afterAll ++ suite.afterEach) r1.2
  let r3 := cleanTestList config suite.tests r2.2
  let beforeHooks := r1.1
  let afterHooks := r2.1
  let cleanTests := r3.1
  let passingTests := cleanTests.filter (fun t => t.state == some "passed")
  let failingTests := cleanTests.filter (fun t => t.state == some "failed")
  let pendingTests := cleanTests.filter (fun t => t.pending)
  let skippedTests := cleanTests.filter (fun t => t.skipped)
  let duration := cleanTests.foldl (fun acc t => acc + t.duration) 0
  let counterOut := counter + suite.tests.length
  ({ title := suite.title
     fullFile := suite.file.getD ""
     file :=
       match suite.file with
       | some f => if f == "" then "" else ⟨removeFirstOcc config.cwd.data f.data⟩
       | none => ""
     beforeHooks := beforeHooks
     afterHooks := afterHooks
     tests := cleanTests
     passes := passingTests
     failures := failingTests
     pending := pendingTests
     skipped := skippedTests
     hasBeforeHooks := beforeHooks.length > 0
     hasAfterHooks := afterHooks.length > 0
     hasTests := cleanTests.length > 0
     hasSuites := numChildSuites > 0
     totalTests := cleanTests.length
     totalPasses := passingTests.length
     totalFailures := failingTests.length
     totalPending := pendingTests.length
     totalSkipped := skippedTests.length
     hasPasses := passingTests.length > 0
     hasFailures := failingTests.length > 0
     hasPending := pendingTests.length > 0
     hasSkipped := skippedTests.length > 0
     root := suite.root
     uuid := suiteUuid
     duration := duration
     rootEmpty := suite.root && cleanTests.length == 0
     timeoutMs := suite.timeoutMs }, counterOut, r3.2)

mutual
/-- A raw runner suite tree: the per-suite record plus the `suites`
collection of child suites. -/
inductive RTree where
  | node : SuiteData → RForest → RTree
/-- An ordered sequence of raw child suites. -/
inductive RForest where
  | nil : RForest
  | cons : RTree → RForest → RForest
end

mutual
/-- A suite tree after the walker has run: every node is either still raw
(untouched by `cleanSuite`) or cleaned in place. -/
inductive OTree where
  | raw : SuiteData → OForest → OTree
  | cln : CSuiteData → OForest → OTree
/-- An ordered sequence of visited child suites. -/
inductive OForest where
  | nil : OForest
  | cons : OTree → OForest → OForest
end

/-- Number of child suites (`suite.suites.length`). -/
def forestLen : RForest → Nat
  | .nil => 0
  | .cons _ ts => forestLen ts + 1

mutual
/-- Sum of `tests.length` over every suite of the tree (direct tests only). -/
def sumTestsTree : RTree → Nat
  | .node d ch => d.tests.length + sumTestsForest ch
/-- Sum of `tests.length` over every suite of the forest. -/
def sumTestsForest : RForest → Nat
  | .nil => 0
  | .cons t ts => sumTestsTree t + sumTestsForest ts
end

mutual
/-- True when no suite in the tree carries the `root` flag. -/
def noRootTree : RTree → Bool
  | .node d ch => !d.root && noRootForest ch
/-- True when no suite in the forest carries the `root` flag. -/
def noRootForest : RForest → Bool
  | .nil => true
  | .cons t ts => noRootTree t && noRootForest ts
end

mutual
/-- Clean one suite node and then every descendant.  The source walks the
tree breadth-first with an explicit queue (lines 284–299), cleaning each
child suite when its parent is dequeued; every suite of the subtree is
normalized exactly once, so the transformation is modelled by recursive
descent.  The traversal order affects only the order in which the shared
counter is incremented (a commutative sum) and the order of uuid draws;
no per-suite result depends on it. -/
def cleanTree (config : Config) : RTree → Nat → Nat → OTree × Nat × Nat
  | .node d ch, counter, g =>
    let r := cleanSuiteModel config d (forestLen ch) counter g
    let rf := cleanForest config ch r.2.1 r.2.2
    (.cln r.1 rf.1, rf.2.1, rf.2.2)
/-- Clean every suite of a forest, threading counter and generator. -/
def cleanForest (config : Config) : RForest → Nat → Nat → OForest × Nat × Nat
  | .nil, counter, g => (.nil, counter, g)
  | .cons t ts, counter, g =>
    let r := cleanTree config t counter g
    let rs := cleanForest config ts r.2.1 r.2.2
    (.cons r.1 rs.1, rs.2.1, rs.2.2)
end

/-- The source's `traverseSuites` (lines 284–299): the argument suite
itself is normalized only when it carries the `root` flag (line 288);
child suites are always normalized when their parent is visited (lines
291–295).  The result is the transformed tree plus the final counter and
generator values. -/
def traverseSuites (config : Config) (t : RTree) (counter : Nat) (g : Nat) :
    OTree × Nat × Nat :=
  match t with
  | .node d ch =>
    if d.root then cleanTree config t counter g
    else
      let rf := cleanForest config ch counter g
      (.raw d rf.1, rf.2.1, rf.2.2)

/-- The per-suite record of a tree node, when the node is still raw. -/
def topRawData : OTree → Option SuiteData
  | .raw d _ => some d
  | .cln _ _ => none

/-- The per-suite record of a tree node, when the node has been cleaned. -/
def topCleanData : OTree → Option CSuiteData
  | .raw _ _ => none
  | .cln d _ => some d

/-- The children of a visited tree node. -/
def otreeChildren : OTree → OForest
  | .raw _ ch => ch
  | .cln _ ch => ch

mutual
/-- True when every suite of the tree has been cleaned. -/
def allCleanTree : OTree → Bool
  | .raw _ _ => false
  | .cln _ ch => allCleanForest ch
/-- True when every suite of the forest has been cleaned. -/
def allCleanForest : OForest → Bool
  | .nil => true
  | .cons t ts => allCleanTree t && allCleanForest ts
end

/-- The source's `removeAllPropsFromObjExcept` (lines 59–65) at the level
of own-property names: every property whose name is not in `propsToKeep`
is deleted, in place, preserving the order of the kept ones. -/
def removeAllPropsFromObjExcept (objProps propsToKeep : List String) : List String :=
  objProps.filter (fun p => propsToKeep.contains p)

/-- JavaScript property assignment at the level of own-property names: an
existing key keeps its position, a new key is appended. -/
def assignProp (props : List String) (p : String) : List String :=
  if props.contains p then props else props ++ [p]

/-- The property names `cleanSuite` assigns, in source order: `uuid` on
line 226, then the block of lines 248–271. -/
def cleanSuiteAssignedProps : List String :=
  ["uuid", "beforeHooks", "afterHooks", "tests", "fullFile", "file",
   "passes", "failures", "pending", "skipped",
   "hasBeforeHooks", "hasAfterHooks", "hasTests", "hasSuites",
   "totalTests", "totalPasses", "totalFailures", "totalPending",
   "totalSkipped", "hasPasses", "hasFailures", "hasPending", "hasSkipped",
   "duration", "rootEmpty"]

/-- The allow-list handed to `removeAllPropsFromObjExcept` on line 273. -/
def suiteAllowedProps : List String :=
  ["title", "fullFile", "file", "beforeHooks", "afterHooks", "tests",
   "suites", "passes", "failures", "pending", "skipped",
   "hasBeforeHooks", "hasAfterHooks", "hasTests", "hasSuites",
   "totalTests", "totalPasses", "totalFailures", "totalPending",
   "totalSkipped", "hasPasses", "hasFailures", "hasPending", "hasSkipped",
   "root", "uuid", "duration", "rootEmpty", "_timeout"]

/-- The effect of `cleanSuite` on a suite's set of own-property names:
the assignments of lines 226 and 248–271 followed by the pruning of line
273. -/
def cleanSuiteProps (rawProps : List String) : List String :=
  removeAllPropsFromObjExcept (cleanSuiteAssignedProps.foldl assignProp rawProps)
    suiteAllowedProps

/-- Head of a visited forest. -/
def oforestHead : OForest → Option OTree
  | .nil => none
  | .cons t _ => some t

/-- Configuration of the worked example of §8 of the spec: unified diff
mode. -/
def exConfig : Config := { useInlineDiffs := false, cwd := "/cwd" }

/-- The failing assertion error of the worked example: `actual = "foo"`,
`expected = "bar"`, `showDiff` unset. -/
def exErr : RawErr :=
  { name := some "AssertionError"
    message := some "expected 'foo' to equal 'bar'"
    stack := some "AssertionError: expected 'foo' to equal 'bar'\n    at Context.it"
    actual := JSVal.str "foo"
    expected := JSVal.str "bar"
    showDiff := JSVal.undef }

/-- The passing test of the worked example. -/
def exPassTest : RawTest :=
  { title := "works"
    fullTitleFn := some "child suite works"
    timedOut := false
    duration := some 5
    state := some "passed"
    speed := some "fast"
    pending := false
    context := JSVal.undef
    fn := none
    body := none
    err := none
    parent := some { root := false, uuid := none }
    uuid := none
    type := some "test" }

/-- The failing test of the worked example. -/
def exFailTest : RawTest :=
  { exPassTest with
      title := "fails"
      fullTitleFn := some "child suite fails"
      state := some "failed"
      speed := none
      err := some exErr }

/-- The child suite of the worked example: two direct tests. -/
def exChildSuite : SuiteData :=
  { title := some "child suite"
    file := some "/cwd/test/a.js"
    root := false
    timeoutMs := 2000
    beforeAll := []
    beforeEach := []
    afterAll := []
    afterEach := []
    tests := [exPassTest, exFailTest]
    uuid := none }

/-- The root suite of the worked example: flagged `root`, no direct
tests, one child suite. -/
def exRootSuite : SuiteData :=
  { title := some ""
    file := none
    root := true
    timeoutMs := 2000
    beforeAll := []
    beforeEach := []
    afterAll := []
    afterEach := []
    tests := []
    uuid := none }

/-- The worked example's suite tree. -/
def exTree : RTree := .node exRootSuite (.cons (.node exChildSuite .nil) .nil)

/-- Running the walker over the worked example with a fresh counter. -/
def exRun : OTree × Nat × Nat := traverseSuites exConfig exTree 0 0

/-- The cleaned root suite of the worked example. -/
def exRootData : Option CSuiteData := topCleanData exRun.1

/-- The cleaned child suite of the worked example. -/
def exChildData : Option CSuiteData :=
  (oforestHead (otreeChildren exRun.1)).bind topCleanData

/-- The failing test's normalized diff in the worked example. -/
def exFailDiff : Option DiffVal :=
  exChildData.bind fun d =>
    (d.tests.get? 1).bind fun t =>
      t.err.bind fun e => e.diff

/-- The failing test's unified-diff text in the worked example. -/
def exDiffStr : Option String :=
  match exFailDiff with
  | some (.unified s) => some s
  | _ => none

/-- A character that none of `cleanCode`'s regexes can react to: not
JavaScript whitespace (hence no line terminator and no BOM), not an
opening parenthesis (required by both header alternatives), and not a
closing brace. -/
def plainChar (c : Char) : Bool :=
  !isJsWS c && c != '(' && c != '\x7d'

/-- The diff precondition in the spec's wording: `showDiff` is not
explicitly `false`, `actual` and `expected` are both present and of the
same runtime type, and `expected` is not `undefined`. -/
def specDiffCond (e : RawErr) : Bool :=
  (e.showDiff != JSVal.bool false) && (e.actual != JSVal.undef) &&
    (e.expected != JSVal.undef) && sameType e.actual e.expected

/-- A raw error whose `actual`/`expected` are numbers: the diff guard
holds and the stringify branch of lines 159–162 runs. -/
def numPairErr : RawErr :=
  { name := none, message := none, stack := none,
    actual := JSVal.num 1, expected := JSVal.num 2, showDiff := JSVal.undef }

/-- A raw suite already carrying a uuid. -/
def uuidSuite : SuiteData := { exChildSuite with uuid := some "existing-uuid" }

/-- A raw test already carrying a uuid. -/
def uuidTest : RawTest := { exPassTest with uuid := some "keep-me" }

/-- A tree whose top suite is not flagged `root`: the top suite has two
direct tests and one child suite with two direct tests. -/
def exSubTree : RTree := .node exChildSuite (.cons (.node exChildSuite .nil) .nil)

/-! Helper lemmas. -/

/-- Only `undefined` carries the `[object Undefined]` type tag. -/
theorem typeTag_inj_undef (v : JSVal) (h : typeTag v = "[object Undefined]") :
    v = JSVal.undef := by
  cases v <;> simp only [typeTag] at h <;> first | rfl | exact absurd h (by decide)

/-- The diff guard of line 157 coincides with the spec's wording of the
precondition: presence of `actual` is implied by the type-tag comparison
once `expected` is known not to be `undefined`. -/
theorem diffGuard_iff (e : RawErr) : diffGuard e = true ↔ specDiffCond e = true := by
  simp only [diffGuard, specDiffCond, Bool.and_eq_true, bne_iff_ne, ne_eq, sameType,
    beq_iff_eq]
  constructor
  · rintro ⟨⟨h1, h2⟩, h3⟩
    refine ⟨⟨⟨h1, ?_⟩, h3⟩, h2⟩
    intro ha
    exact h3 (typeTag_inj_undef _ (by rw [← h2, ha]; rfl))
  · rintro ⟨⟨⟨h1, _⟩, h3⟩, h2⟩
    exact ⟨⟨h1, h2⟩, h3⟩

/-- C2: for every raw test, the normalized test's `skipped` flag is
exactly the conjunction of the negations of its `pass`, `fail`, `pending`
and `isHook` flags (line 212). -/
theorem cleanTest_skipped_iff (config : Config) (test : RawTest) (g : Nat) :
    (cleanTest config test g).1.skipped =
      (!(cleanTest config test g).1.pass && !(cleanTest config test g).1.fail &&
        !(cleanTest config test g).1.pending && !(cleanTest config test g).1.isHook) := rfl

/-- C3 counterexample: `cleanSuite` does not preserve an existing suite
uuid — line 226 unconditionally assigns a fresh one.  A suite that
arrives with uuid `existing-uuid` leaves with the freshly drawn
`uuid-0`. -/
theorem cleanSuite_uuid_not_preserved :
    uuidSuite.uuid = some "existing-uuid" ∧
    (cleanSuiteModel exConfig uuidSuite 0 0 0).1.uuid = "uuid-0" ∧
    (cleanSuiteModel exConfig uuidSuite 0 0 0).1.uuid ≠ "existing-uuid" := by
  refine ⟨rfl, by decide, by decide⟩

/-- C3 amended: a test's existing truthy uuid is preserved by `cleanTest`
(and the raw test keeps it); a test without a uuid receives a fresh one in
the output only — nothing is written back to the raw test; a suite's uuid
is always freshly generated by `cleanSuite`, regardless of any existing
value. -/
theorem uuid_generation_amended :
    (∀ (config : Config) (t : RawTest) (g : Nat) (u : String),
        t.uuid = some u → u ≠ "" →
        (cleanTest config t g).1.uuid = u ∧ (cleanTest config t g).2.1.uuid = some u) ∧
    (∀ (config : Config) (t : RawTest) (g : Nat),
        t.uuid = none →
        (cleanTest config t g).1.uuid = genUuid g ∧ (cleanTest config t g).2.1.uuid = none) ∧
    (∀ (config : Config) (suite : SuiteData) (n counter g : Nat),
        (cleanSuiteModel config suite n counter g).1.uuid = genUuid g) := by
  refine ⟨?_, ?_, ?_⟩
  · intro config t g u hu hne
    constructor
    · simp [cleanTest, hu, hne]
    · simp [cleanTest, hu]
  · intro config t g hu
    constructor <;> simp [cleanTest, hu]
  · intro config suite n counter g
    rfl

/-- C3 amended, witness: a test carrying uuid `keep-me` keeps it, and the
suite carrying `existing-uuid` gets the fresh `genUuid 0`. -/
theorem uuid_generation_amended_witness :
    (cleanTest exConfig uuidTest 7).1.uuid = "keep-me" ∧
    (cleanSuiteModel exConfig uuidSuite 0 0 0).1.uuid = genUuid 0 :=
  ⟨(uuid_generation_amended.1 exConfig uuidTest 7 "keep-me" rfl (by decide)).1,
   uuid_generation_amended.2.2 exConfig uuidSuite 0 0 0⟩

/-- C4 counterexample: `normalizeErr` is not pure on its input error —
with numeric `actual`/`expected` the stringify branch of lines 160–161
overwrites both fields in place, so the returned raw error differs from
the input. -/
theorem normalizeErr_mutates_cex :
    (normalizeErr numPairErr exConfig).2 ≠ numPairErr := by decide

/-- C4 amended: every operation is a pure in-memory transformation except
`cleanSuite`, which mutates its suite in place, and `normalizeErr`, which
overwrites the raw error's `actual` and `expected` with stringified
display strings exactly when the diff guard holds and the two values are
not both strings (and leaves the error untouched otherwise); `cleanTest`
never modifies the raw test's own fields — its only mutation is the one
`normalizeErr` performs on the nested error. -/
theorem mutation_frame_amended :
    (∀ (e : RawErr) (config : Config),
        (normalizeErr e config).2 =
          if diffGuard e && !(isStrVal e.actual && isStrVal e.expected) then
            { e with actual := JSVal.str (mochaStringify e.actual),
                     expected := JSVal.str (mochaStringify e.expected) }
          else e) ∧
    (∀ (e : RawErr) (config : Config),
        (isStrVal e.actual && isStrVal e.expected) = true →
        (normalizeErr e config).2 = e) ∧
    (∀ (config : Config) (t : RawTest) (g : Nat),
        (cleanTest config t g).2.1 =
          { t with err := t.err.map (fun er => (normalizeErr er config).2) }) := by
  have base : ∀ (e : RawErr) (config : Config),
      (normalizeErr e config).2 =
        if diffGuard e && !(isStrVal e.actual && isStrVal e.expected) then
          { e with actual := JSVal.str (mochaStringify e.actual),
                   expected := JSVal.str (mochaStringify e.expected) }
        else e := fun e config => rfl
  refine ⟨base, ?_, ?_⟩
  · intro e config h
    have hc : (diffGuard e && !(isStrVal e.actual && isStrVal e.expected)) = false := by
      rw [h]
      simp
    rw [base, hc]
    simp
  · intro config t g
    cases ht : t.err <;> simp [cleanTest, ht]

/-- C4 amended, witness: with string `actual`/`expected` the raw error is
returned unchanged. -/
theorem mutation_frame_amended_witness :
    (normalizeErr exErr exConfig).2 = exErr :=
  mutation_frame_amended.2.1 exErr exConfig (by decide)

/-- C5: a diff is computed (the `diff` field is defined) exactly under the
spec's precondition — `showDiff` not explicitly `false`, `actual` and
`expected` present with equal runtime type tags, `expected` not
`undefined`; and when the two values are not both plain strings, the diff
is built from their `mochaStringify` display strings (lines 157–163). -/
theorem normalizeErr_diff_condition :
    (∀ (e : RawErr) (config : Config),
        ((normalizeErr e config).1.diff ≠ none) ↔ specDiffCond e = true) ∧
    (∀ (e : RawErr) (config : Config),
        specDiffCond e = true →
        isStrVal e.actual = false ∨ isStrVal e.expected = false →
        (normalizeErr e config).1.diff = some (
          if config.useInlineDiffs then
            DiffVal.inlineSegs
              (diffWordsWithSpace (mochaStringify e.actual) (mochaStringify e.expected))
          else
            DiffVal.unified
              (createUnifiedDiff (mochaStringify e.actual) (mochaStringify e.expected)))) := by
  constructor
  · intro e config
    by_cases hg : diffGuard e = true
    · simp [normalizeErr, hg, (diffGuard_iff e).mp hg]
    · have hg' : diffGuard e = false := by revert hg; cases diffGuard e <;> simp
      have hs : specDiffCond e = false := by
        revert hg
        rw [diffGuard_iff e]
        cases specDiffCond e <;> simp
      simp [normalizeErr, hg', hs]
  · intro e config h1 h2
    have hg : diffGuard e = true := (diffGuard_iff e).mpr h1
    have hb : (isStrVal e.actual && isStrVal e.expected) = false := by
      rcases h2 with h | h <;> simp [h]
    simp [normalizeErr, hg, hb]

/-- C5 witness: for the numeric error the guard holds, the values are not
both strings, and the diff is the unified diff of the stringified
values. -/
theorem normalizeErr_diff_condition_witness :
    (normalizeErr numPairErr exConfig).1.diff =
      some (DiffVal.unified (createUnifiedDiff "1" "2")) := by
  have h := normalizeErr_diff_condition.2 numPairErr exConfig (by decide) (Or.inl (by decide))
  simpa [numPairErr, exConfig, mochaStringify] using h

/-- The counter cell after `cleanSuite`: the old value plus the suite's
direct test count (line 246). -/
theorem cleanSuiteModel_counter (config : Config) (d : SuiteData) (n counter g : Nat) :
    (cleanSuiteModel config d n counter g).2.1 = counter + d.tests.length := rfl

mutual
/-- Cleaning a subtree adds exactly its total direct-test count to the
counter. -/
theorem cleanTree_counter (config : Config) :
    ∀ (t : RTree) (counter g : Nat),
      (cleanTree config t counter g).2.1 = counter + sumTestsTree t
  | .node d ch, counter, g => by
    have ihf := cleanForest_counter config ch
    simp [cleanTree, sumTestsTree, cleanSuiteModel_counter, ihf]
    omega
/-- Cleaning a forest adds exactly its total direct-test count to the
counter. -/
theorem cleanForest_counter (config : Config) :
    ∀ (f : RForest) (counter g : Nat),
      (cleanForest config f counter g).2.1 = counter + sumTestsForest f
  | .nil, counter, g => by simp [cleanForest, sumTestsForest]
  | .cons t ts, counter, g => by
    have iht := cleanTree_counter config t
    have ihf := cleanForest_counter config ts
    simp [cleanForest, sumTestsForest, iht, ihf]
    omega
end

mutual
/-- After `cleanTree`, every suite of the subtree is cleaned. -/
theorem cleanTree_allClean (config : Config) :
    ∀ (t : RTree) (counter g : Nat),
      allCleanTree (cleanTree config t counter g).1 = true
  | .node d ch, counter, g => by
    have ihf := cleanForest_allClean config ch
    simp [cleanTree, allCleanTree, ihf]
/-- After `cleanForest`, every suite of the forest is cleaned. -/
theorem cleanForest_allClean (config : Config) :
    ∀ (f : RForest) (counter g : Nat),
      allCleanForest (cleanForest config f counter g).1 = true
  | .nil, counter, g => by simp [cleanForest, allCleanForest]
  | .cons t ts, counter, g => by
    have iht := cleanTree_allClean config t
    have ihf := cleanForest_allClean config ts
    simp [cleanForest, allCleanForest, iht, ihf]
end

/-- C1: over a finite suite tree whose root suite carries the `root` flag
(and — as in every runner-produced tree — no descendant does, so that the
walker never re-cleans an already cleaned suite), running `traverseSuites`
with counter value `counter` leaves the counter at `counter` plus the sum
of `tests.length` over every suite of the tree, direct tests only, hooks
excluded, for every tree shape. -/
theorem traverseSuites_counter_total (config : Config) (d : SuiteData) (ch : RForest)
    (counter g : Nat) (hroot : d.root = true) ( _hdesc : noRootForest ch = true) :
    (traverseSuites config (RTree.node d ch) counter g).2.1 =
      counter + sumTestsTree (RTree.node d ch) := by
  simp only [traverseSuites, hroot, if_true]
  exact cleanTree_counter config (RTree.node d ch) counter g

/-- C1 witness: the worked example's tree (root flagged, no flagged
descendant, two tests overall) drives the fresh counter to 2. -/
theorem traverseSuites_counter_total_witness :
    (traverseSuites exConfig exTree 0 0).2.1 = 2 := by
  have h := traverseSuites_counter_total exConfig exRootSuite
    (RForest.cons (RTree.node exChildSuite RForest.nil) RForest.nil) 0 0 rfl (by decide)
  exact h.trans (by decide)

/-- C10: when the argument suite is not flagged `root` (and no suite of
the tree is, as in a runner-produced subtree), the walker leaves the
argument suite itself raw — its record is unchanged and its direct tests
are not counted — while every descendant suite is normalized and its
direct tests are counted. -/
theorem traverseSuites_nonroot (config : Config) (d : SuiteData) (ch : RForest)
    (counter g : Nat) (hroot : d.root = false) ( _hdesc : noRootForest ch = true) :
    topRawData (traverseSuites config (RTree.node d ch) counter g).1 = some d ∧
    (traverseSuites config (RTree.node d ch) counter g).2.1 =
      counter + sumTestsForest ch ∧
    allCleanForest (otreeChildren (traverseSuites config (RTree.node d ch) counter g).1) =
      true := by
  refine ⟨?_, ?_, ?_⟩ <;> simp only [traverseSuites, hroot, if_false, Bool.false_eq_true,
    topRawData, otreeChildren]
  · exact cleanForest_counter config ch counter g
  · exact cleanForest_allClean config ch counter g

/-- C10 witness: a two-suite tree whose top suite is unflagged — the top
stays raw, only the child's two tests are counted, and the child is
cleaned. -/
theorem traverseSuites_nonroot_witness :
    topRawData (traverseSuites exConfig exSubTree 0 0).1 = some exChildSuite ∧
    (traverseSuites exConfig exSubTree 0 0).2.1 = 2 ∧
    allCleanForest (otreeChildren (traverseSuites exConfig exSubTree 0 0).1) = true := by
  have h := traverseSuites_nonroot exConfig exChildSuite
    (RForest.cons (RTree.node exChildSuite RForest.nil) RForest.nil) 0 0 rfl (by decide)
  exact ⟨h.1, h.2.1.trans (by decide), h.2.2⟩

/-- Membership after one JavaScript property assignment. -/
theorem mem_assignProp (props : List String) (p q : String) :
    q ∈ assignProp props p ↔ q ∈ props ∨ q = p := by
  unfold assignProp
  split
  · rename_i h
    have hm := List.mem_of_elem_eq_true h
    constructor
    · exact Or.inl
    · rintro (hq | rfl)
      · exact hq
      · exact hm
  · simp

/-- Membership after the whole assignment sequence. -/
theorem mem_foldl_assignProp (ks : List String) :
    ∀ (props : List String) (q : String),
      q ∈ ks.foldl assignProp props ↔ q ∈ props ∨ q ∈ ks := by
  induction ks with
  | nil => simp
  | cons k ks ih =>
    intro props q
    rw [List.foldl_cons, ih, mem_assignProp]
    simp
    tauto

/-- `cleanTest` maps one test to one test, so normalization preserves the
length of a test list. -/
theorem cleanTestList_length (config : Config) :
    ∀ (ts : List RawTest) (g : Nat),
      (cleanTestList config ts g).1.length = ts.length
  | [], _ => rfl
  | t :: ts, g => by
    simp [cleanTestList, cleanTestList_length config ts]

/-- C9: after `cleanSuite`, a suite whose raw record carried the fields
the source reads but does not assign (`title`, `suites`, `root`,
`_timeout`) holds exactly the own properties of the allow-list of line
273 — every other pre-existing property has been deleted — and the
derived fields are computed from the pre-pruning data: `totalTests` is
the raw direct-test count, `fullFile` the original file path (or the
empty string), `rootEmpty` the conjunction of the root flag with test
emptiness, while `root` and `_timeout` survive unchanged. -/
theorem cleanSuite_props_allowlist (rawProps : List String)
    (h1 : "title" ∈ rawProps) (h2 : "suites" ∈ rawProps)
    (h3 : "root" ∈ rawProps) (h4 : "_timeout" ∈ rawProps) :
    (∀ p, p ∈ cleanSuiteProps rawProps ↔ p ∈ suiteAllowedProps) ∧
    (∀ (config : Config) (d : SuiteData) (n counter g : Nat),
      (cleanSuiteModel config d n counter g).1.totalTests = d.tests.length ∧
      (cleanSuiteModel config d n counter g).1.fullFile = d.file.getD "" ∧
      (cleanSuiteModel config d n counter g).1.rootEmpty =
        (d.root && d.tests.length == 0) ∧
      (cleanSuiteModel config d n counter g).1.root = d.root ∧
      (cleanSuiteModel config d n counter g).1.timeoutMs = d.timeoutMs) := by
  constructor
  · intro p
    unfold cleanSuiteProps removeAllPropsFromObjExcept
    rw [List.mem_filter]
    constructor
    · rintro ⟨-, hk⟩
      exact List.mem_of_elem_eq_true hk
    · intro hp
      refine ⟨?_, List.elem_eq_true_of_mem hp⟩
      rw [mem_foldl_assignProp]
      fin_cases hp
      · exact Or.inl h1
      · exact Or.inr (by decide)
      · exact Or.inr (by decide)
      · exact Or.inr (by decide)
      · exact Or.inr (by decide)
      · exact Or.inr (by decide)
      · exact Or.inl h2
      · exact Or.inr (by decide)
      · exact Or.inr (by decide)
      · exact Or.inr (by decide)
      · exact Or.inr (by decide)
      · exact Or.inr (by decide)
      · exact Or.inr (by decide)
      · exact Or.inr (by decide)
      · exact Or.inr (by decide)
      · exact Or.inr (by decide)
      · exact Or.inr (by decide)
      · exact Or.inr (by decide)
      · exact Or.inr (by decide)
      · exact Or.inr (by decide)
      · exact Or.inr (by decide)
      · exact Or.inr (by decide)
      · exact Or.inr (by decide)
      · exact Or.inr (by decide)
      · exact Or.inl h3
      · exact Or.inr (by decide)
      · exact Or.inr (by decide)
      · exact Or.inr (by decide)
      · exact Or.inl h4
  · intro config d n counter g
    refine ⟨?_, rfl, ?_, rfl, rfl⟩
    · simp [cleanSuiteModel, cleanTestList_length]
    · simp [cleanSuiteModel, cleanTestList_length]

/-- C9 witness: a raw suite carrying the four read-only fields plus two
internal ones; the internal `_beforeAll` is pruned while the allow-listed
`root` survives. -/
theorem cleanSuite_props_allowlist_witness :
    ("_beforeAll" ∈ cleanSuiteProps ["title", "suites", "root", "_timeout", "_beforeAll"] ↔
      "_beforeAll" ∈ suiteAllowedProps) ∧
    ("root" ∈ cleanSuiteProps ["title", "suites", "root", "_timeout", "_beforeAll"] ↔
      "root" ∈ suiteAllowedProps) := by
  have h := cleanSuite_props_allowlist ["title", "suites", "root", "_timeout", "_beforeAll"]
    (by decide) (by decide) (by decide) (by decide)
  exact ⟨h.1 "_beforeAll", h.1 "root"⟩

set_option maxRecDepth 4000

/-- C7 counterexample: in the worked example of §8 the failing test's
unified diff is `"- foo\n+ bar\n"`; its lines carry the marker first and
then a space, so it contains no line `" -foo"` and no line `" +bar"` as
the claim literally states them. -/
theorem example_diff_marker_cex :
    exDiffStr = some "- foo\n+ bar\n" ∧
    " -foo" ∉ linesOf "- foo\n+ bar\n" ∧
    " +bar" ∉ linesOf "- foo\n+ bar\n" := by decide

/-- C7 amended: the worked example — a flagged root suite with one child
suite holding one passed test and one test failed with actual `foo`,
expected `bar`, `showDiff` unset, unified mode — yields root
`totalTests = 0`, child `totalTests = 2`, counter total `2`, and a
non-empty unified diff containing the lines `"- foo"` and `"+ bar"`
(marker, then a space, then the text). -/
theorem example_pipeline_amended :
    exRun.2.1 = 2 ∧
    exRootData.map (fun d => d.totalTests) = some 0 ∧
    exChildData.map (fun d => d.totalTests) = some 2 ∧
    exDiffStr = some "- foo\n+ bar\n" ∧
    exDiffStr ≠ some "" ∧
    "- foo" ∈ linesOf "- foo\n+ bar\n" ∧
    "+ bar" ∈ linesOf "- foo\n+ bar\n" := by decide

/-- A substring absent from a list is absent from its tail. -/
theorem hasSubCL_tail_false (pat : List Char) (c : Char) (rest : List Char)
    (h : hasSubCL pat (c :: rest) = false) : hasSubCL pat rest = false := by
  simp only [hasSubCL, Bool.or_eq_false_iff] at h
  exact h.2

/-- Every line produced by `splitOnNL` is free of newline characters. -/
theorem splitOnNL_no_nl_mem (cs : List Char) : ∀ l ∈ splitOnNL cs, '\n' ∉ l := by
  induction cs with
  | nil =>
    intro l hl
    simp [splitOnNL] at hl
    subst hl
    simp
  | cons c rest ih =>
    intro l hl
    by_cases hc : (c == '\n') = true
    · simp only [splitOnNL, hc, if_true, List.mem_cons] at hl
      rcases hl with rfl | hl
      · simp
      · exact ih l hl
    · have hc' : (c == '\n') = false := by revert hc; cases c == '\n' <;> simp
      have hcn : c ≠ '\n' := by simpa using hc'
      cases heq : splitOnNL rest with
      | nil =>
        simp only [splitOnNL, hc', Bool.false_eq_true, if_false, heq,
          List.mem_singleton] at hl
        subst hl
        simpa using Ne.symm hcn
      | cons l0 ls =>
        simp only [splitOnNL, hc', Bool.false_eq_true, if_false, heq,
          List.mem_cons] at hl
        rcases hl with rfl | hl
        · intro hmem
          rcases List.mem_cons.mp hmem with h1 | h1
          · exact hcn h1.symm
          · exact ih l0 (heq ▸ List.mem_cons_self l0 ls) h1
        · exact ih l (heq ▸ List.mem_cons_of_mem l0 hl)

/-- Splitting a newline-free string yields that single line. -/
theorem splitOnNL_no_nl (l : List Char) (h : '\n' ∉ l) : splitOnNL l = [l] := by
  induction l with
  | nil => rfl
  | cons c rest ih =>
    have hc : (c == '\n') = false := by
      simp only [beq_eq_false_iff_ne, ne_eq]
      intro hcc
      exact h (hcc ▸ List.mem_cons_self c rest)
    have ih' := ih (fun hm => h (List.mem_cons_of_mem c hm))
    simp [splitOnNL, hc, ih']

/-- Splitting around an explicit newline separates the first line. -/
theorem splitOnNL_append (l t : List Char) (h : '\n' ∉ l) :
    splitOnNL (l ++ '\n' :: t) = l :: splitOnNL t := by
  induction l with
  | nil => simp [splitOnNL]
  | cons c rest ih =>
    have hc : (c == '\n') = false := by
      simp only [beq_eq_false_iff_ne, ne_eq]
      intro hcc
      exact h (hcc ▸ List.mem_cons_self c rest)
    have ih' := ih (fun hm => h (List.mem_cons_of_mem c hm))
    simp [splitOnNL, hc, ih']

/-- Splitting is a left inverse of joining for nonempty lists of
newline-free lines. -/
theorem splitOnNL_joinNL (L : List (List Char)) (hne : L ≠ [])
    (h : ∀ l ∈ L, '\n' ∉ l) : splitOnNL (joinNL L) = L := by
  induction L with
  | nil => exact absurd rfl hne
  | cons l L ih =>
    cases L with
    | nil => exact splitOnNL_no_nl l (h l (List.mem_cons_self l []))
    | cons l2 L2 =>
      have hj : joinNL (l :: l2 :: L2) = l ++ '\n' :: joinNL (l2 :: L2) := rfl
      rw [hj, splitOnNL_append l _ (h l (List.mem_cons_self l (l2 :: L2)))]
      rw [ih (by simp) (fun x hx => h x (List.mem_cons_of_mem l hx))]

/-- Inserting the post-marker space cannot create an occurrence of a
pattern that starts with neither the marker nor a space. -/
theorem hasSubCL_marker_insert (p0 : Char) (ps : List Char) (c : Char) (rest : List Char)
    (hp0c : (p0 == c) = false) (hp0s : (p0 == ' ') = false)
    (h : hasSubCL (p0 :: ps) (c :: rest) = false) :
    hasSubCL (p0 :: ps) (c :: ' ' :: rest) = false := by
  have hr := hasSubCL_tail_false _ c rest h
  simp only [hasSubCL, isPrefixCL, hp0c, hp0s, Bool.false_and, Bool.false_or]
  exact hr

/-- Lines surviving `diffLineStep` contain neither a hunk-header `@@` nor
a backslash-escaped no-newline marker, and they stay newline-free. -/
theorem diffLineStep_clean (l l' : List Char) (h : diffLineStep l = some l') :
    hasSubCL "@@".data l' = false ∧
    hasSubCL "\x5c No newline".data l' = false ∧
    ('\n' ∉ l → '\n' ∉ l') := by
  unfold diffLineStep at h
  by_cases h1 : hasSubCL "@@".data l = true
  · rw [h1] at h
    simp at h
  · have h1' : hasSubCL "@@".data l = false := by
      revert h1; cases hasSubCL "@@".data l <;> simp
    by_cases h2 : hasSubCL "\x5c No newline".data l = true
    · rw [h1', h2] at h
      simp at h
    · have h2' : hasSubCL "\x5c No newline".data l = false := by
        revert h2; cases hasSubCL "\x5c No newline".data l <;> simp
      rw [h1', h2'] at h
      simp only [Bool.false_eq_true, if_false] at h
      cases l with
      | nil =>
        simp only [Option.some.injEq] at h
        subst h
        exact ⟨by decide, by decide, fun _ => by simp⟩
      | cons c rest =>
        by_cases hm : (c == '-' || c == '+') = true
        · simp only [hm, if_true, Option.some.injEq] at h
          subst h
          have e1 : "@@".data = '@' :: "@".data := rfl
          have e2 : "\x5c No newline".data = '\x5c' :: " No newline".data := rfl
          rw [e1] at h1' ⊢
          rw [e2] at h2' ⊢
          rcases (show c = '-' ∨ c = '+' by simpa using hm) with rfl | rfl <;>
            refine ⟨hasSubCL_marker_insert _ _ _ _ (by decide) (by decide) h1',
              hasSubCL_marker_insert _ _ _ _ (by decide) (by decide) h2', ?_⟩ <;>
            · intro hn hmem
              simp only [List.mem_cons] at hmem
              rcases hmem with h3 | h3 | h3
              · exact absurd h3 (by decide)
              · exact absurd h3 (by decide)
              · exact hn (List.mem_cons_of_mem _ h3)
        · have hm' : (c == '-' || c == '+') = false := by
            revert hm; cases c == '-' || c == '+' <;> simp
          simp only [hm', Bool.false_eq_true, if_false, Option.some.injEq] at h
          subst h
          exact ⟨h1', h2', fun hn => hn⟩

/-- Every line of the post-processed patch is free of `@@` and of the
backslash-escaped no-newline marker, whatever patch text comes in. -/
theorem processPatch_lines (p : String) (l : String)
    (hl : l ∈ linesOf (processPatch p)) :
    hasSub l "@@" = false ∧ hasSub l "\x5c No newline" = false := by
  have hrw : linesOf (processPatch p) =
      (splitOnNL (joinNL (((splitOnNL p.data).drop 4).filterMap diffLineStep))).map
        (fun c => (⟨c⟩ : String)) := rfl
  rw [hrw] at hl
  set L := ((splitOnNL p.data).drop 4).filterMap diffLineStep with hL
  by_cases hne : L = []
  · rw [hne] at hl
    simp only [joinNL, splitOnNL, List.map_cons, List.map_nil, List.mem_singleton] at hl
    subst hl
    exact ⟨by decide, by decide⟩
  · have hnl : ∀ x ∈ L, '\n' ∉ x := by
      intro x hx
      rcases List.mem_filterMap.mp (hL ▸ hx) with ⟨l0, hl0, hstep⟩
      have hl0' : '\n' ∉ l0 := splitOnNL_no_nl_mem p.data l0 (List.mem_of_mem_drop hl0)
      exact (diffLineStep_clean l0 x hstep).2.2 hl0'
    rw [splitOnNL_joinNL L hne hnl] at hl
    rcases List.mem_map.mp hl with ⟨x, hx, rfl⟩
    rcases List.mem_filterMap.mp (hL ▸ hx) with ⟨l0, hl0, hstep⟩
    have hc := diffLineStep_clean l0 x hstep
    exact ⟨hc.1, hc.2.1⟩

/-- C6 counterexample: with `actual = "No newline"` the patch body carries
the content line `-No newline`, which survives the filter (only the
backslash-escaped marker lines are dropped) and becomes the output line
`"- No newline"` — a line containing the text `No newline`. -/
theorem createUnifiedDiff_no_newline_cex :
    "- No newline" ∈ linesOf (createUnifiedDiff "No newline" "x") ∧
    hasSub "- No newline" "No newline" = true := by decide

/-- C6 amended: for all inputs, the unified-mode output contains no line
with an `@@` hunk header (in particular none starting with `@@`) and no
line containing the backslash-escaped marker `\x5c No newline`; content
lines that merely mention the bare text `No newline` can still appear. -/
theorem createUnifiedDiff_filtered_lines (a e l : String)
    (hl : l ∈ linesOf (createUnifiedDiff a e)) :
    hasSub l "@@" = false ∧ hasSub l "\x5c No newline" = false :=
  processPatch_lines (createPatch a e) l hl

/-- C6 amended, witness: the line `"- foo"` of the `foo`/`bar` diff is
clean. -/
theorem createUnifiedDiff_filtered_lines_witness :
    hasSub "- foo" "@@" = false ∧ hasSub "- foo" "\x5c No newline" = false :=
  createUnifiedDiff_filtered_lines "foo" "bar" "- foo" (by decide)

/-- C8 counterexample: `cleanCode` is not idempotent — on `"\x7d\x7d"`
the trailing-brace strip removes one brace per application, so a second
application changes the result again. -/
theorem cleanCode_not_idempotent_cex :
    cleanCode "\x7d\x7d" = "\x7d" ∧ cleanCode "\x7d" = "" ∧
    cleanCode (cleanCode "\x7d\x7d") ≠ cleanCode "\x7d\x7d" := by decide

/-- Unpack `plainChar` into its three defining facts. -/
theorem plainChar_facts (c : Char) (h : plainChar c = true) :
    isJsWS c = false ∧ c ≠ '(' ∧ c ≠ '\x7d' := by
  simp only [plainChar, Bool.and_eq_true, Bool.not_eq_true', bne_iff_ne, ne_eq] at h
  exact ⟨h.1.1, h.1.2, h.2⟩

/-- A non-whitespace character is none of the individual whitespace
characters the cleaning regexes test for. -/
theorem not_ws_ne (c : Char) (h : isJsWS c = false) :
    c ≠ '\r' ∧ c ≠ '\n' ∧ c ≠ ' ' ∧ c ≠ ' ' ∧ c ≠ '﻿' ∧
      c ≠ ' ' ∧ c ≠ '\t' := by
  refine ⟨?_, ?_, ?_, ?_, ?_, ?_, ?_⟩ <;>
    · intro hc
      subst hc
      exact absurd h (by decide)

/-- Newline normalization is the identity on strings without carriage
returns, line feeds, or Unicode line separators. -/
theorem normalizeNL_id (s : List Char) (h : ∀ c ∈ s, plainChar c = true) :
    normalizeNL s = s := by
  induction s with
  | nil => rfl
  | cons c rest ih =>
    have hws := (plainChar_facts c (h c (List.mem_cons_self c rest))).1
    obtain ⟨hr, hn, h28, h29, -, -, -⟩ := not_ws_ne c hws
    have hr' : (c == '\r') = false := beq_eq_false_iff_ne.mpr hr
    have hn' : (c == '\n') = false := beq_eq_false_iff_ne.mpr hn
    have h28' : (c == ' ') = false := beq_eq_false_iff_ne.mpr h28
    have h29' : (c == ' ') = false := beq_eq_false_iff_ne.mpr h29
    have ih' := ih (fun x hx => h x (List.mem_cons_of_mem c hx))
    simp [normalizeNL, hr', hn', h28', h29', ih']

/-- BOM stripping is the identity on strings that do not start with a
byte-order mark. -/
theorem stripBOM_id (s : List Char) (h : ∀ c ∈ s, plainChar c = true) :
    stripBOM s = s := by
  cases s with
  | nil => rfl
  | cons c rest =>
    have hws := (plainChar_facts c (h c (List.mem_cons_self c rest))).1
    obtain ⟨-, -, -, -, hbom, -, -⟩ := not_ws_ne c hws
    have hbom' : (c == '﻿') = false := beq_eq_false_iff_ne.mpr hbom
    simp [stripBOM, hbom']

/-- The anchored `function` alternative needs an opening parenthesis. -/
theorem tryFnAlt_eq_none (s : List Char) (h : '(' ∉ s) : tryFnAlt s = none := by
  unfold tryFnAlt
  split
  · cases hdw : (s.drop 8).dropWhile isJsWS with
    | nil => rfl
    | cons c rest =>
      have h1 : c ∈ (s.drop 8).dropWhile isJsWS := hdw ▸ List.mem_cons_self c rest
      have h2 : c ∈ s.drop 8 := (List.dropWhile_sublist _).mem h1
      have hcs : c ∈ s := (List.drop_sublist 8 s).mem h2
      have hc : (c == '(') = false := beq_eq_false_iff_ne.mpr (fun hcc => h (hcc ▸ hcs))
      simp [hc]
  · rfl

/-- The unanchored arrow alternative needs an opening parenthesis. -/
theorem scanArrow_eq_none (s : List Char) (h : '(' ∉ s) : scanArrow s = none := by
  induction s with
  | nil => rfl
  | cons c rest ih =>
    have hc : (c == '(') = false :=
      beq_eq_false_iff_ne.mpr (fun hcc => h (hcc ▸ List.mem_cons_self c rest))
    have ih' := ih (fun hm => h (List.mem_cons_of_mem c hm))
    simp [scanArrow, hc, ih']

/-- Header stripping is the identity on parenthesis-free strings. -/
theorem stripFnHeader_id (s : List Char) (h : '(' ∉ s) : stripFnHeader s = s := by
  simp [stripFnHeader, tryFnAlt_eq_none s h, scanArrow_eq_none s h]

/-- Trailing-brace stripping is the identity on brace-free strings. -/
theorem stripTrailingBrace_id (s : List Char) (h : '\x7d' ∉ s) :
    stripTrailingBrace s = s := by
  cases hrev : s.reverse with
  | nil => simp [stripTrailingBrace, hrev]
  | cons c rest =>
    have hcs : c ∈ s := by
      rw [← List.mem_reverse]
      exact hrev ▸ List.mem_cons_self c rest
    have hc : (c == '\x7d') = false := beq_eq_false_iff_ne.mpr (fun hcc => h (hcc ▸ hcs))
    simp [stripTrailingBrace, hrev, hc]

/-- The dedent pass with a zero-width indentation unit is the identity on
newline-free strings. -/
theorem dedentGo_zero_id (ch : Char) (s : List Char) (h : '\n' ∉ s) :
    ∀ fuel b, dedentGo ch 0 fuel s b = s := by
  induction s with
  | nil => intro fuel b; cases fuel <;> rfl
  | cons c rest ih =>
    intro fuel b
    cases fuel with
    | zero => rfl
    | succ f =>
      have hc : (c == '\n') = false :=
        beq_eq_false_iff_ne.mpr (fun hcc => h (hcc ▸ List.mem_cons_self c rest))
      have ih' := ih (fun hm => h (List.mem_cons_of_mem c hm)) f
      cases b <;> simp [dedentGo, hc, ih']

/-- Skipping one optional newline is the identity on newline-free
strings. -/
theorem afterOptNL_id (s : List Char) (h : '\n' ∉ s) : afterOptNL s = s := by
  cases s with
  | nil => rfl
  | cons c rest =>
    have hc : (c == '\n') = false :=
      beq_eq_false_iff_ne.mpr (fun hcc => h (hcc ▸ List.mem_cons_self c rest))
    simp [afterOptNL, hc]

/-- No leading run of `ch` when the head differs from `ch`. -/
theorem countLeading_zero (ch : Char) (s : List Char) (h : ∀ c ∈ s, c ≠ ch) :
    countLeading ch s = 0 := by
  cases s with
  | nil => rfl
  | cons c rest =>
    have hc : (c == ch) = false :=
      beq_eq_false_iff_ne.mpr (h c (List.mem_cons_self c rest))
    simp [countLeading, hc]

/-- The full dedent step is the identity on plain strings. -/
theorem dedent_id (s : List Char) (h : ∀ c ∈ s, plainChar c = true) :
    dedent s = s := by
  have hnl : '\n' ∉ s := fun hm => absurd (h '\n' hm) (by decide)
  have ha : afterOptNL s = s := afterOptNL_id s hnl
  have hsp : countLeading ' ' s = 0 :=
    countLeading_zero ' ' s (fun c hc => ((not_ws_ne c (plainChar_facts c (h c hc)).1).2.2.2.2.2.1))
  have htb : countLeading '\t' s = 0 :=
    countLeading_zero '\t' s (fun c hc => ((not_ws_ne c (plainChar_facts c (h c hc)).1).2.2.2.2.2.2))
  simp [dedent, ha, hsp, htb, dedentGo_zero_id ' ' s hnl]

/-- Trimming is the identity on whitespace-free strings. -/
theorem trimWS_id (s : List Char) (h : ∀ c ∈ s, isJsWS c = false) :
    trimWS s = s := by
  have hdw : ∀ (t : List Char), (∀ c ∈ t, isJsWS c = false) → t.dropWhile isJsWS = t := by
    intro t ht
    cases t with
    | nil => rfl
    | cons c rest => simp [List.dropWhile_cons, ht c (List.mem_cons_self c rest)]
  unfold trimWS
  rw [hdw s h]
  rw [hdw s.reverse (fun c hc => h c (List.mem_reverse.mp hc))]
  exact List.reverse_reverse s

/-- On strings of plain characters, `cleanCode` is the identity: none of
its six passes can fire. -/
theorem cleanCode_id_plain (s : String) (h : ∀ c ∈ s.data, plainChar c = true) :
    cleanCode s = s := by
  have hpar : '(' ∉ s.data := fun hm => absurd (h '(' hm) (by decide)
  have hbr : '\x7d' ∉ s.data := fun hm => absurd (h '\x7d' hm) (by decide)
  have hws : ∀ c ∈ s.data, isJsWS c = false := fun c hc => (plainChar_facts c (h c hc)).1
  unfold cleanCode
  rw [normalizeNL_id s.data h, stripBOM_id s.data h, stripFnHeader_id s.data hpar,
    stripTrailingBrace_id s.data hbr, dedent_id s.data h, trimWS_id s.data hws]

/-- C8 amended: `cleanCode` is idempotent on every string whose characters
are all plain — not JavaScript whitespace, not `(`, not a closing brace —
because on such strings a single application is already the identity.
A second application can change the result only when the first exposes a
new trailing brace, function/arrow header, or indentation pattern. -/
theorem cleanCode_idempotent_plain (s : String) (h : ∀ c ∈ s.data, plainChar c = true) :
    cleanCode (cleanCode s) = cleanCode s := by
  rw [cleanCode_id_plain s h, cleanCode_id_plain s h]

/-- C8 amended, witness: a plain alphabetic string. -/
theorem cleanCode_idempotent_plain_witness :
    cleanCode (cleanCode "abc") = cleanCode "abc" :=
  cleanCode_idempotent_plain "abc" (by decide)
